import Mathlib

/-!
# Verification of the storage-libs share-exchange protocol

Shallow embedding of the NFS and CephFS relation-interface libraries of
`canonical/storage-libs`.  The repository ships the libraries' unit tests and a
placeholder charm; the library modules themselves (`nfs_interfaces`,
`cephfs_interfaces`) are distributed separately, so the operations below are
modelled from the specification's description of the protocol (each such
definition carries a `Modelled from the spec:` doc comment).  The host
framework's keyed relation databag is modelled as an insertion-ordered
association list with in-place update — matching the semantics of the Python
dict that backs it — and the framework's secret store as an explicit state
record.
-/

set_option autoImplicit false

/-- A keyed string-valued record: the relation databag of one side of a
pairing.  Insertion-ordered, keys unique by construction of `set`. -/
structure Databag where
  entries : List (String × String)
deriving DecidableEq, Repr

/-- The empty databag. -/
def Databag.empty : Databag := ⟨[]⟩

/-- Look a key up in a list of entries, first match wins. -/
def lookupEntries (l : List (String × String)) (key : String) : Option String :=
  match l with
  | [] => none
  | (k, v) :: rest => if k = key then some v else lookupEntries rest key

/-- Read a key from a databag. -/
def Databag.get (b : Databag) (key : String) : Option String :=
  lookupEntries b.entries key

/-- Write a key into a list of entries: replace in place when the key is
present, append otherwise (the update semantics of a Python dict). -/
def setEntries (l : List (String × String)) (key val : String) : List (String × String) :=
  match l with
  | [] => [(key, val)]
  | (k, v) :: rest => if k = key then (key, val) :: rest else (k, v) :: setEntries rest key val

/-- Write a key into a databag. -/
def Databag.set (b : Databag) (key val : String) : Databag :=
  ⟨setEntries b.entries key val⟩

/-- CephFS share response payload: filesystem id, name, export path and the
ordered list of monitor `host:port` strings. -/
structure CephFSShareInfo where
  fsid : String
  name : String
  path : String
  monitor_hosts : List String
deriving DecidableEq, Repr

/-- CephFS authentication payload: username and secret key material. -/
structure CephFSAuthInfo where
  username : String
  key : String
deriving DecidableEq, Repr

/-- Data carried by the NFS `ShareRequested` event: the raw channel strings,
undecoded. -/
structure ShareRequestedData where
  name : String
  allowlist : Option String
  size : Option String
deriving DecidableEq, Repr

/-! ## Structured-text serialization

The spec stores `share_info` "as a single structured-text blob under one key"
and the legacy `auth` payload as an inline structured-text `{username,key}`
object.  We fix the concrete structured-text format the tests exhibit
(`json.dumps` of the dataclass dict): a brace-delimited object with
double-quoted string fields in a fixed field order, and the monitor-host list
bracket-delimited with `", "` separators.  The decoder is a character-level
parser that is a partial inverse of the encoder and rejects every other
shape. -/

/-- Opening brace character of a structured-text object. -/
def lbrace : Char := Char.ofNat 123

/-- Closing brace character of a structured-text object. -/
def rbrace : Char := Char.ofNat 125

/-- Double-quote character delimiting structured-text strings. -/
def qm : Char := '"'

/-- Consume the characters of a quoted string up to (and including) the next
double quote; fail when no closing quote exists. -/
def takeString (cs : List Char) : Option (List Char × List Char) :=
  match cs with
  | [] => none
  | c :: rest =>
    if c = qm then some ([], rest)
    else
      match takeString rest with
      | some (s, r) => some (c :: s, r)
      | none => none

/-- Consume an exact literal token from the front of the stream. -/
def stripToken (tok cs : List Char) : Option (List Char) :=
  match tok, cs with
  | [], rest => some rest
  | _ :: _, [] => none
  | t :: ts, c :: rest => if c = t then stripToken ts rest else none

/-- Literal token opening the auth object up to the username value. -/
def authTokA : List Char := lbrace :: "\"username\": \"".data

/-- Literal token between the username and key values. -/
def authTokB : List Char := ", \"key\": \"".data

/-- Modelled from the spec: serialization of the inline `{username,key}`
structured-text payload written after the `plain:` marker by callers without
secret-store support. -/
def encodeAuthChars (a : CephFSAuthInfo) : List Char :=
  authTokA ++ a.username.data ++ [qm] ++ authTokB ++ a.key.data ++ [qm, rbrace]

/-- String form of `encodeAuthChars`. -/
def encodeAuthInfo (a : CephFSAuthInfo) : String :=
  String.mk (encodeAuthChars a)

/-- Modelled from the spec: decoder of the inline `{username,key}`
structured-text payload; any other shape is rejected with `none`. -/
def decodeAuthChars (cs : List Char) : Option CephFSAuthInfo :=
  match stripToken authTokA cs with
  | none => none
  | some cs1 =>
    match takeString cs1 with
    | none => none
    | some (u, cs2) =>
      match stripToken authTokB cs2 with
      | none => none
      | some cs3 =>
        match takeString cs3 with
        | none => none
        | some (k, cs4) =>
          if cs4 = [rbrace] then some ⟨String.mk u, String.mk k⟩ else none

/-- String form of `decodeAuthChars`. -/
def decodeAuthInfo (s : String) : Option CephFSAuthInfo :=
  decodeAuthChars s.data

/-- Literal token opening the share-info object up to the fsid value. -/
def siTokA : List Char := lbrace :: "\"fsid\": \"".data

/-- Literal token between the fsid and name values. -/
def siTokB : List Char := ", \"name\": \"".data

/-- Literal token between the name and path values. -/
def siTokC : List Char := ", \"path\": \"".data

/-- Literal token between the path value and the monitor-host list. -/
def siTokD : List Char := ", \"monitor_hosts\": [".data

/-- Serialization of the tail of a monitor-host list, including the closing
bracket; items are double-quoted and separated by a comma and a space. -/
def encodeHostsRest (hs : List String) : List Char :=
  match hs with
  | [] => [']']
  | [h] => qm :: h.data ++ [qm, ']']
  | h :: rest => qm :: h.data ++ [qm, ',', ' '] ++ encodeHostsRest rest

/-- Modelled from the spec: serialization of a `CephFSShareInfo` as a single
structured-text blob `fsid`/`name`/`path`/`monitor_hosts`. -/
def encodeShareChars (si : CephFSShareInfo) : List Char :=
  siTokA ++ si.fsid.data ++ [qm] ++ siTokB ++ si.name.data ++ [qm] ++
    siTokC ++ si.path.data ++ [qm] ++ siTokD ++ encodeHostsRest si.monitor_hosts ++ [rbrace]

/-- String form of `encodeShareChars`. -/
def encodeShareInfo (si : CephFSShareInfo) : String :=
  String.mk (encodeShareChars si)

/-- Parser for the tail of a non-empty monitor-host list (fuelled structural
recursion; fuel bounds the number of items). -/
def parseHostsRest (fuel : Nat) (cs : List Char) : Option (List String × List Char) :=
  match fuel with
  | 0 => none
  | fuel' + 1 =>
    match stripToken [qm] cs with
    | none => none
    | some cs1 =>
      match takeString cs1 with
      | none => none
      | some (h, cs2) =>
        match cs2 with
        | ']' :: rest => some ([String.mk h], rest)
        | ',' :: ' ' :: rest =>
          match parseHostsRest fuel' rest with
          | none => none
          | some (hs, rest2) => some (String.mk h :: hs, rest2)
        | _ => none

/-- Parser for a monitor-host list (after the opening bracket). -/
def parseHosts (fuel : Nat) (cs : List Char) : Option (List String × List Char) :=
  match cs with
  | [] => none
  | c :: rest => if c = ']' then some ([], rest) else parseHostsRest fuel (c :: rest)

/-- Modelled from the spec: decoder of the `share_info` structured-text blob;
a blob missing a required field (for instance `monitor_hosts`) or otherwise
malformed is rejected with `none`. -/
def decodeShareChars (cs : List Char) : Option CephFSShareInfo :=
  match stripToken siTokA cs with
  | none => none
  | some cs1 =>
    match takeString cs1 with
    | none => none
    | some (f, cs2) =>
      match stripToken siTokB cs2 with
      | none => none
      | some cs3 =>
        match takeString cs3 with
        | none => none
        | some (n, cs4) =>
          match stripToken siTokC cs4 with
          | none => none
          | some cs5 =>
            match takeString cs5 with
            | none => none
            | some (p, cs6) =>
              match stripToken siTokD cs6 with
              | none => none
              | some cs7 =>
                match parseHosts cs7.length cs7 with
                | none => none
                | some (hs, cs8) =>
                  if cs8 = [rbrace] then
                    some ⟨String.mk f, String.mk n, String.mk p, hs⟩
                  else none

/-- String form of `decodeShareChars`. -/
def decodeShareInfo (s : String) : Option CephFSShareInfo :=
  decodeShareChars s.data

/-- Well-formedness of one structured-text string field: it contains no
double quote, so the quote-delimited serialization is invertible. -/
def NoQuote (s : String) : Prop := qm ∉ s.data

instance (s : String) : Decidable (NoQuote s) := by
  unfold NoQuote; infer_instance

/-- Well-formedness of a `CephFSShareInfo`: every string field quote-free. -/
def ShareInfoWf (si : CephFSShareInfo) : Prop :=
  NoQuote si.fsid ∧ NoQuote si.name ∧ NoQuote si.path ∧ ∀ h ∈ si.monitor_hosts, NoQuote h

instance (si : CephFSShareInfo) : Decidable (ShareInfoWf si) := by
  unfold ShareInfoWf; infer_instance

/-- Well-formedness of a `CephFSAuthInfo`: both string fields quote-free. -/
def AuthInfoWf (a : CephFSAuthInfo) : Prop :=
  NoQuote a.username ∧ NoQuote a.key

instance (a : CephFSAuthInfo) : Decidable (AuthInfoWf a) := by
  unfold AuthInfoWf; infer_instance

/-! ## Secret store

Modelled from the spec: the host's secret store with create/grant/update/
resolve operations keyed by an opaque handle.  Handles minted by `create` are
`secret:`-prefixed and numbered by a monotone counter. -/

/-- Look a handle up in the stored secrets, first match wins. -/
def lookupSecrets (l : List (String × CephFSAuthInfo)) (h : String) : Option CephFSAuthInfo :=
  match l with
  | [] => none
  | (k, v) :: rest => if k = h then some v else lookupSecrets rest h

/-- Modelled from the spec: the secret store external to the channel —
contents keyed by opaque handle, the read grants issued so far, and a counter
minting fresh handles. -/
structure SecretStore where
  secrets : List (String × CephFSAuthInfo)
  grants : List (String × String)
  nextId : Nat
deriving DecidableEq, Repr

/-- The empty secret store. -/
def SecretStore.empty : SecretStore := ⟨[], [], 0⟩

/-- The handle `create` would mint next: `secret:` followed by the counter. -/
def freshHandle (st : SecretStore) : String := "secret:" ++ toString st.nextId

/-- Modelled from the spec: create a new secret, returning its fresh opaque
handle and the grown store. -/
def SecretStore.create (st : SecretStore) (content : CephFSAuthInfo) :
    String × SecretStore :=
  (freshHandle st,
   { st with secrets := st.secrets ++ [(freshHandle st, content)], nextId := st.nextId + 1 })

/-- Modelled from the spec: grant an application read access to a secret. -/
def SecretStore.grant (st : SecretStore) (h app : String) : SecretStore :=
  { st with grants := st.grants ++ [(h, app)] }

/-- Replace the content stored under a handle, leaving other entries alone. -/
def updateSecrets (l : List (String × CephFSAuthInfo)) (h : String)
    (content : CephFSAuthInfo) : List (String × CephFSAuthInfo) :=
  match l with
  | [] => []
  | (k, v) :: rest =>
    if k = h then (k, content) :: updateSecrets rest h content
    else (k, v) :: updateSecrets rest h content

/-- Modelled from the spec: update an existing secret's content in place;
a handle not present in the store is left unchanged. -/
def SecretStore.update (st : SecretStore) (h : String) (content : CephFSAuthInfo) :
    SecretStore :=
  { st with secrets := updateSecrets st.secrets h content }

/-- Modelled from the spec: resolve a handle to the secret's current content;
`none` when the handle does not exist. -/
def SecretStore.resolve (st : SecretStore) (h : String) : Option CephFSAuthInfo :=
  lookupSecrets st.secrets h

/-- Freshness of the store's next handle: minting it cannot collide with an
already-stored secret (always true of handles minted by the store itself). -/
def HandleFresh (st : SecretStore) : Prop :=
  ∀ p ∈ st.secrets, p.1 ≠ freshHandle st

instance (st : SecretStore) : Decidable (HandleFresh st) := by
  unfold HandleFresh; infer_instance

/-! ## NFS interface (`nfs_interfaces`) -/

/-- Comma-join of an address list, matching the behaviour of joining with a
single-comma separator: empty list gives the empty string. -/
def joinComma (xs : List String) : String :=
  match xs with
  | [] => ""
  | [x] => x
  | x :: rest => x ++ "," ++ joinComma rest

/-- Modelled from the spec: the `allowlist` channel value — a single string
or an ordered sequence of strings both accepted, joined comma-separated; an
unspecified allowlist defaults to the all-access sentinel `0.0.0.0`. -/
def allowlistStr (al : Option (String ⊕ List String)) : String :=
  match al with
  | none => "0.0.0.0"
  | some (Sum.inl s) => s
  | some (Sum.inr xs) => joinComma xs

/-- Modelled from the spec: the `size` channel value — a string-encoded
signed integer, defaulting to `-1` when unspecified. -/
def sizeStr (sz : Option Int) : String :=
  toString (sz.getD (-1))

/-- Modelled from the spec: NFS `request_share(pairing, name, allowlist?,
size?)` — writes `name`, the joined `allowlist` and the stringified `size`
into the requirer's record, overwriting prior values; a non-leader call is a
silent no-op. -/
def NFS.request_share (leader : Bool) (bag : Databag) (name : String)
    (allowlist : Option (String ⊕ List String)) (size : Option Int) : Databag :=
  if leader then
    ((bag.set "name" name).set "allowlist" (allowlistStr allowlist)).set "size" (sizeStr size)
  else bag

/-- Modelled from the spec: NFS `set_endpoint(pairing, endpoint)` — writes the
endpoint string directly (no secret indirection); a non-leader call is a
silent no-op. -/
def NFS.set_endpoint (leader : Bool) (bag : Databag) (endpoint : String) : Databag :=
  if leader then bag.set "endpoint" endpoint else bag

/-- Modelled from the spec: the NFS MountShare event decision — fires with the
endpoint exactly when the remote record carries one; an incomplete record
yields `none` (suppressed, never an error). -/
def NFS.mountEvent (record : Databag) : Option String :=
  record.get "endpoint"

/-- Modelled from the spec: the NFS UmountShare event decision on peer
departure — fires with the last-known endpoint exactly when the departing
record carried one. -/
def NFS.umountEvent (record : Databag) : Option String :=
  record.get "endpoint"

/-- Modelled from the spec: the NFS ShareRequested event decision — fires when
the remote record carries `name`, exposing the raw channel strings for
`allowlist` and `size` undecoded. -/
def NFS.shareRequestedEvent (record : Databag) : Option ShareRequestedData :=
  match record.get "name" with
  | none => none
  | some n => some ⟨n, record.get "allowlist", record.get "size"⟩

/-! ## CephFS interface (`cephfs_interfaces`) -/

/-- Modelled from the spec: CephFS `request_share(pairing, name)` — writes
only `name`; a non-leader call is a silent no-op. -/
def CephFS.request_share (leader : Bool) (bag : Databag) (name : String) : Databag :=
  if leader then bag.set "name" name else bag

/-- Local state of the CephFS provider: its channel record, the host secret
store it talks to, its leadership flag and the remote application to grant
secret access to. -/
structure CephFSProviderState where
  bag : Databag
  store : SecretStore
  isLeader : Bool
  remoteApp : String
deriving DecidableEq, Repr

/-- Modelled from the spec: CephFS `set_share(pairing, share_info, auth_info)`
— serializes `share_info` into its keyed field; for `auth_info`, if no secret
handle is stored in the `auth` field yet, creates a secret, grants the remote
application read access and stores the handle (databag field written once);
if a handle is already stored, updates the existing secret's content in place
and leaves the field untouched.  A non-leader call is a silent no-op. -/
def CephFS.set_share (st : CephFSProviderState) (share_info : CephFSShareInfo)
    (auth_info : CephFSAuthInfo) : CephFSProviderState :=
  if st.isLeader then
    match st.bag.get "auth" with
    | some h =>
      { st with
        bag := st.bag.set "share_info" (encodeShareInfo share_info)
        store := st.store.update h auth_info }
    | none =>
      let created := st.store.create auth_info
      { st with
        bag := (st.bag.set "share_info" (encodeShareInfo share_info)).set "auth" created.1
        store := (created.2).grant created.1 st.remoteApp }
  else st

/-- Modelled from the spec: CephFS AuthInfo resolution by prefix — a
`plain:`-marked value carries an inline structured-text payload decoded
directly; a bare value resembling a secret handle (`secret:`-marked, the shape
the host store mints) is dereferenced through the store; any other shape is
unresolvable (`none`). -/
def CephFS.resolveAuth (store : SecretStore) (auth : String) : Option CephFSAuthInfo :=
  match stripToken "plain:".data auth.data with
  | some rest => decodeAuthChars rest
  | none =>
    match stripToken "secret:".data auth.data with
    | some _ => store.resolve auth
    | none => none

/-- Modelled from the spec: the CephFS MountShare event decision — fires with
the decoded ShareInfo and resolved AuthInfo exactly when the remote record
carries a decodable `share_info` blob and a resolvable `auth` value; anything
incomplete or unresolvable yields `none` (suppressed, never an error). -/
def CephFS.mountEvent (store : SecretStore) (record : Databag) :
    Option (CephFSShareInfo × CephFSAuthInfo) :=
  match record.get "share_info", record.get "auth" with
  | some blob, some auth =>
    match decodeShareInfo blob, CephFS.resolveAuth store auth with
    | some si, some ai => some (si, ai)
    | _, _ => none
  | _, _ => none

/-- Modelled from the spec: the CephFS UmountShare event decision on peer
departure — fires with the last-known decoded values exactly when the
departing record was complete and resolvable. -/
def CephFS.umountEvent (store : SecretStore) (record : Databag) :
    Option (CephFSShareInfo × CephFSAuthInfo) :=
  match record.get "share_info", record.get "auth" with
  | some blob, some auth =>
    match decodeShareInfo blob, CephFS.resolveAuth store auth with
    | some si, some ai => some (si, ai)
    | _, _ => none
  | _, _ => none

/-- Modelled from the spec: the CephFS ShareRequested event decision — fires
with the raw `name` string when the remote record carries one. -/
def CephFS.shareRequestedEvent (record : Databag) : Option String :=
  record.get "name"

/-! ## Basic laws of the keyed channel -/

theorem lookupEntries_setEntries (l : List (String × String)) (k k' v : String) :
    lookupEntries (setEntries l k v) k' = if k = k' then some v else lookupEntries l k' := by
  induction l with
  | nil => simp only [setEntries, lookupEntries]
  | cons p rest ih =>
    obtain ⟨pk, pv⟩ := p
    by_cases hpk : pk = k
    · subst hpk
      simp only [setEntries, if_pos rfl, lookupEntries]
      by_cases h : pk = k' <;> simp [h]
    · simp only [setEntries, if_neg hpk, lookupEntries, ih]
      by_cases h1 : pk = k'
      · have h2 : ¬k = k' := fun hh => hpk (h1.trans hh.symm)
        simp [h1, h2]
      · simp [h1]

theorem Databag.get_set (b : Databag) (k k' v : String) :
    (b.set k v).get k' = if k = k' then some v else b.get k' := by
  simp [Databag.get, Databag.set, lookupEntries_setEntries]

theorem setEntries_setEntries (l : List (String × String)) (k v v' : String) :
    setEntries (setEntries l k v) k v' = setEntries l k v' := by
  induction l with
  | nil => simp [setEntries]
  | cons p rest ih =>
    obtain ⟨pk, pv⟩ := p
    by_cases hpk : pk = k
    · subst hpk
      simp [setEntries]
    · simp [setEntries, hpk, ih]

theorem Databag.set_set (b : Databag) (k v v' : String) :
    (b.set k v).set k v' = b.set k v' := by
  simp [Databag.set, setEntries_setEntries]

theorem setEntries_eq_self (l : List (String × String)) (k v : String)
    (h : lookupEntries l k = some v) : setEntries l k v = l := by
  induction l with
  | nil => simp [lookupEntries] at h
  | cons p rest ih =>
    obtain ⟨pk, pv⟩ := p
    by_cases hpk : pk = k
    · subst hpk
      simp [lookupEntries] at h
      simp [setEntries, h]
    · simp only [lookupEntries, if_neg hpk] at h
      simp [setEntries, hpk, ih h]

theorem Databag.set_eq_self (b : Databag) (k v : String) (h : b.get k = some v) :
    b.set k v = b := by
  cases b with
  | mk entries => simp [Databag.set, setEntries_eq_self entries k v h]

/-! ## Basic laws of the secret store -/

theorem lookupSecrets_updateSecrets (l : List (String × CephFSAuthInfo)) (h : String)
    (ai : CephFSAuthInfo) (hmem : (lookupSecrets l h).isSome = true) :
    lookupSecrets (updateSecrets l h ai) h = some ai := by
  induction l with
  | nil => simp [lookupSecrets] at hmem
  | cons p rest ih =>
    obtain ⟨pk, pv⟩ := p
    by_cases hpk : pk = h
    · subst hpk
      simp [updateSecrets, lookupSecrets]
    · simp only [lookupSecrets, if_neg hpk] at hmem
      simp [updateSecrets, lookupSecrets, hpk, ih hmem]

theorem SecretStore.resolve_update (st : SecretStore) (h : String) (ai : CephFSAuthInfo)
    (hmem : (st.resolve h).isSome = true) : (st.update h ai).resolve h = some ai := by
  simp only [SecretStore.resolve, SecretStore.update] at *
  exact lookupSecrets_updateSecrets st.secrets h ai hmem

theorem updateSecrets_idem (l : List (String × CephFSAuthInfo)) (h : String)
    (ai : CephFSAuthInfo) :
    updateSecrets (updateSecrets l h ai) h ai = updateSecrets l h ai := by
  induction l with
  | nil => simp [updateSecrets]
  | cons p rest ih =>
    obtain ⟨pk, pv⟩ := p
    by_cases hpk : pk = h
    · subst hpk
      simp [updateSecrets, ih]
    · simp [updateSecrets, hpk, ih]

theorem SecretStore.update_update (st : SecretStore) (h : String) (ai : CephFSAuthInfo) :
    (st.update h ai).update h ai = st.update h ai := by
  simp [SecretStore.update, updateSecrets_idem]

theorem updateSecrets_append_fresh (l : List (String × CephFSAuthInfo)) (h : String)
    (ai : CephFSAuthInfo) (hf : ∀ p ∈ l, p.1 ≠ h) :
    updateSecrets (l ++ [(h, ai)]) h ai = l ++ [(h, ai)] := by
  induction l with
  | nil => simp [updateSecrets]
  | cons p rest ih =>
    obtain ⟨pk, pv⟩ := p
    have hpk : pk ≠ h := hf (pk, pv) (by simp)
    have hrest := ih fun q hq => hf q (by simp [hq])
    simp [updateSecrets, hpk, hrest]

/-! ## Round-trip laws of the structured-text serialization -/

theorem stripToken_append (tok rest : List Char) : stripToken tok (tok ++ rest) = some rest := by
  induction tok with
  | nil => simp [stripToken]
  | cons c cs ih => simp [stripToken, ih]

theorem takeString_append (l rest : List Char) (h : qm ∉ l) :
    takeString (l ++ qm :: rest) = some (l, rest) := by
  induction l with
  | nil => simp [takeString]
  | cons c cs ih =>
    have hc : c ≠ qm := fun hq => h (by simp [hq])
    have hcs : qm ∉ cs := fun hq => h (by simp [hq])
    simp [takeString, hc, ih hcs]

theorem dataAppend (s t : String) : (s ++ t).data = s.data ++ t.data := rfl

theorem mkData (s : String) : String.mk s.data = s := rfl

theorem stripToken_qm (cs : List Char) : stripToken [qm] (qm :: cs) = some cs := by
  simp [stripToken]

theorem parseHostsRest_encode (hs : List String) (rest : List Char) (fuel : Nat)
    (hne : hs ≠ []) (hwf : ∀ x ∈ hs, NoQuote x) (hfuel : hs.length ≤ fuel) :
    parseHostsRest fuel (encodeHostsRest hs ++ rest) = some (hs, rest) := by
  induction hs generalizing fuel rest with
  | nil => exact absurd rfl hne
  | cons h t ih =>
    cases fuel with
    | zero => simp at hfuel
    | succ fuel' =>
      have hq : qm ∉ h.data := hwf h (by simp)
      cases t with
      | nil =>
        simp only [encodeHostsRest, List.cons_append, List.append_assoc, List.nil_append]
        rw [parseHostsRest, stripToken_qm]
        dsimp only []
        rw [takeString_append _ _ hq]
        rfl
      | cons h2 t2 =>
        simp only [encodeHostsRest, List.cons_append, List.append_assoc, List.nil_append]
        rw [parseHostsRest, stripToken_qm]
        dsimp only []
        rw [takeString_append _ _ hq]
        have hfuel' : (h2 :: t2).length ≤ fuel' := by simp at hfuel ⊢; omega
        have hwf' : ∀ x ∈ h2 :: t2, NoQuote x := fun x hx => hwf x (by simp [hx])
        show (match parseHostsRest fuel' (encodeHostsRest (h2 :: t2) ++ rest) with
              | none => none
              | some (hs, rest2) => some (String.mk h.data :: hs, rest2))
            = some (h :: h2 :: t2, rest)
        rw [ih rest fuel' (by simp) hwf' hfuel']

theorem parseHosts_encode (hs : List String) (rest : List Char) (fuel : Nat)
    (hwf : ∀ x ∈ hs, NoQuote x) (hfuel : hs.length ≤ fuel) :
    parseHosts fuel (encodeHostsRest hs ++ rest) = some (hs, rest) := by
  cases hs with
  | nil => simp [encodeHostsRest, parseHosts]
  | cons h t =>
    have hq : ¬(qm = ']') := by decide
    cases t with
    | nil =>
      simp only [encodeHostsRest, List.cons_append, List.append_assoc, List.nil_append]
      rw [parseHosts, if_neg hq]
      have := parseHostsRest_encode [h] rest fuel (by simp) hwf hfuel
      simpa [encodeHostsRest, List.cons_append, List.append_assoc] using this
    | cons h2 t2 =>
      simp only [encodeHostsRest, List.cons_append, List.append_assoc, List.nil_append]
      rw [parseHosts, if_neg hq]
      have := parseHostsRest_encode (h :: h2 :: t2) rest fuel (by simp) hwf hfuel
      simpa [encodeHostsRest, List.cons_append, List.append_assoc] using this

theorem length_le_encodeHostsRest (hs : List String) :
    hs.length ≤ (encodeHostsRest hs).length := by
  induction hs with
  | nil => simp [encodeHostsRest]
  | cons h t ih =>
    cases t with
    | nil => simp [encodeHostsRest]
    | cons h2 t2 =>
      simp only [encodeHostsRest, List.length_cons, List.length_append] at ih ⊢
      omega

theorem decodeAuthChars_encode (a : CephFSAuthInfo) (hwf : AuthInfoWf a) :
    decodeAuthChars (encodeAuthChars a) = some a := by
  obtain ⟨hu, hk⟩ := hwf
  simp only [encodeAuthChars, List.append_assoc, List.singleton_append, List.cons_append,
    List.nil_append]
  rw [decodeAuthChars, stripToken_append]
  dsimp only []
  rw [takeString_append _ _ hu]
  dsimp only []
  rw [stripToken_append]
  dsimp only []
  rw [takeString_append _ _ hk]
  rfl

theorem decodeShareChars_encode (si : CephFSShareInfo) (hwf : ShareInfoWf si) :
    decodeShareChars (encodeShareChars si) = some si := by
  obtain ⟨hf, hn, hp, hm⟩ := hwf
  have hfl : si.monitor_hosts.length ≤ (encodeHostsRest si.monitor_hosts ++ [rbrace]).length := by
    have := length_le_encodeHostsRest si.monitor_hosts
    simp only [List.length_append]
    omega
  simp only [encodeShareChars, List.append_assoc, List.singleton_append, List.cons_append,
    List.nil_append]
  rw [decodeShareChars, stripToken_append]
  dsimp only []
  rw [takeString_append _ _ hf]
  dsimp only []
  rw [stripToken_append]
  dsimp only []
  rw [takeString_append _ _ hn]
  dsimp only []
  rw [stripToken_append]
  dsimp only []
  rw [takeString_append _ _ hp]
  dsimp only []
  rw [stripToken_append]
  dsimp only []
  rw [parseHosts_encode si.monitor_hosts [rbrace] _ hm hfl]
  rfl

theorem decodeShareInfo_encode (si : CephFSShareInfo) (hwf : ShareInfoWf si) :
    decodeShareInfo (encodeShareInfo si) = some si := by
  simp only [decodeShareInfo, encodeShareInfo]
  exact decodeShareChars_encode si hwf

theorem decodeAuthInfo_encode (a : CephFSAuthInfo) (hwf : AuthInfoWf a) :
    decodeAuthInfo (encodeAuthInfo a) = some a := by
  simp only [decodeAuthInfo, encodeAuthInfo]
  exact decodeAuthChars_encode a hwf

theorem resolveAuth_plain (store : SecretStore) (a : CephFSAuthInfo) (hwf : AuthInfoWf a) :
    CephFS.resolveAuth store ("plain:" ++ encodeAuthInfo a) = some a := by
  have hdata : ("plain:" ++ encodeAuthInfo a).data = "plain:".data ++ encodeAuthChars a := rfl
  rw [CephFS.resolveAuth, hdata, stripToken_append]
  exact decodeAuthChars_encode a hwf

theorem resolveAuth_handle (store : SecretStore) (n : String) (ai : CephFSAuthInfo)
    (h : store.resolve ("secret:" ++ n) = some ai) :
    CephFS.resolveAuth store ("secret:" ++ n) = some ai := by
  have hplain : stripToken "plain:".data ("secret:" ++ n).data = none := rfl
  have hsec : stripToken "secret:".data ("secret:" ++ n).data = some n.data := by
    rw [dataAppend]; exact stripToken_append _ _
  rw [CephFS.resolveAuth, hplain]
  dsimp only []
  rw [hsec]
  dsimp only []
  exact h

/-! ## Claims -/

/-- C3: For every valid `(name, allowlist, size)` input, NFS `request_share`
followed immediately by a read of the channel yields exactly those fields:
`name` as given, `allowlist` comma-joined (a single string and a sequence both
accepted, with equivalent inputs producing identical joined output), `size` as
a string-encoded integer; an unspecified allowlist defaults to `0.0.0.0` and
an unspecified size defaults to `-1`. -/
theorem claim3_request_share_fields :
    (∀ (name : String) (al : Option (String ⊕ List String)) (sz : Option Int),
      NFS.request_share true Databag.empty name al sz =
        ⟨[("name", name), ("allowlist", allowlistStr al), ("size", sizeStr sz)]⟩) ∧
    (∀ s : String, allowlistStr (some (Sum.inl s)) = allowlistStr (some (Sum.inr [s]))) ∧
    allowlistStr none = "0.0.0.0" ∧
    sizeStr none = "-1" ∧
    (∀ n : Int, sizeStr (some n) = toString n) := by
  refine ⟨fun name al sz => ?_, fun s => rfl, rfl, by decide, fun n => rfl⟩
  simp [NFS.request_share, Databag.set, Databag.empty, setEntries]

/-- A first `set_share` on a fresh pairing writes exactly the serialized
share_info and the handle `secret:0`. -/
theorem set_share_fresh_bag (si : CephFSShareInfo) (ai : CephFSAuthInfo) (app : String) :
    (CephFS.set_share ⟨Databag.empty, SecretStore.empty, true, app⟩ si ai).bag =
      ⟨[("share_info", encodeShareInfo si), ("auth", "secret:0")]⟩ := by
  simp [CephFS.set_share, Databag.get, Databag.empty, lookupEntries, SecretStore.create,
    SecretStore.grant, Databag.set, setEntries, freshHandle, SecretStore.empty]
  decide

/-- After a first `set_share` on a fresh pairing, the minted handle resolves
to the given auth_info. -/
theorem set_share_fresh_resolve (si : CephFSShareInfo) (ai : CephFSAuthInfo) (app : String) :
    (CephFS.set_share ⟨Databag.empty, SecretStore.empty, true, app⟩ si ai).store.resolve
      "secret:0" = some ai := by
  simp [CephFS.set_share, Databag.get, Databag.empty, lookupEntries, SecretStore.create,
    SecretStore.grant, freshHandle, SecretStore.empty, SecretStore.resolve, lookupSecrets]
  decide

/-- C4: The provider's response write stores exactly the documented response
fields: NFS `set_endpoint` on an empty channel leaves exactly
`{endpoint: e}`; CephFS `set_share` on a fresh pairing stores `share_info`
serialized as a single structured-text blob under the `share_info` key plus an
`auth` handle that resolves to the given auth_info. -/
theorem claim4_provider_response_exact :
    (∀ e : String, NFS.set_endpoint true Databag.empty e = ⟨[("endpoint", e)]⟩) ∧
    (∀ (si : CephFSShareInfo) (ai : CephFSAuthInfo) (app : String),
      (CephFS.set_share ⟨Databag.empty, SecretStore.empty, true, app⟩ si ai).bag =
        ⟨[("share_info", encodeShareInfo si), ("auth", "secret:0")]⟩ ∧
      (CephFS.set_share ⟨Databag.empty, SecretStore.empty, true, app⟩ si ai).store.resolve
          "secret:0" = some ai) := by
  exact ⟨fun e => rfl,
    fun si ai app => ⟨set_share_fresh_bag si ai app, set_share_fresh_resolve si ai app⟩⟩

/-- C8: After any call to `request_share` on a pairing, the requirer's record
is exactly the record determined by that call's arguments (for CephFS, only
the `name` key); values written by earlier calls do not survive, and no new
entry or history is created. -/
theorem claim8_request_overwrite :
    (∀ (bag : Databag) (k n1 n2 : String) (a1 a2 : Option (String ⊕ List String))
        (s1 s2 : Option Int),
      (NFS.request_share true (NFS.request_share true bag n1 a1 s1) n2 a2 s2).get k =
        (NFS.request_share true bag n2 a2 s2).get k) ∧
    (∀ (n1 n2 : String) (a1 a2 : Option (String ⊕ List String)) (s1 s2 : Option Int),
      NFS.request_share true (NFS.request_share true Databag.empty n1 a1 s1) n2 a2 s2 =
        NFS.request_share true Databag.empty n2 a2 s2) ∧
    (∀ (bag : Databag) (n1 n2 : String),
      CephFS.request_share true (CephFS.request_share true bag n1) n2 =
        CephFS.request_share true bag n2) ∧
    (∀ n : String, CephFS.request_share true Databag.empty n = ⟨[("name", n)]⟩) := by
  refine ⟨fun bag k n1 n2 a1 a2 s1 s2 => ?_, fun n1 n2 a1 a2 s1 s2 => ?_,
    fun bag n1 n2 => ?_, fun n => rfl⟩
  · simp only [NFS.request_share, eq_self_iff_true, if_true]
    simp only [Databag.get_set]
    split_ifs <;> simp_all
  · simp [NFS.request_share, Databag.set, Databag.empty, setEntries]
  · simp [CephFS.request_share, Databag.set_set]

/-- C9: Any call to `request_share`, `set_share` or `set_endpoint` made while
the local unit is not the pairing's leader-equivalent leaves the channel (and
for CephFS the whole provider state, secret store included) completely
unchanged; the operations are total functions, so no error is raised or
otherwise signalled to the caller. -/
theorem claim9_nonleader_noop :
    (∀ (bag : Databag) (name : String) (al : Option (String ⊕ List String)) (sz : Option Int),
      NFS.request_share false bag name al sz = bag) ∧
    (∀ (bag : Databag) (name : String), CephFS.request_share false bag name = bag) ∧
    (∀ (bag : Databag) (e : String), NFS.set_endpoint false bag e = bag) ∧
    (∀ (bag : Databag) (store : SecretStore) (app : String) (si : CephFSShareInfo)
        (ai : CephFSAuthInfo),
      CephFS.set_share ⟨bag, store, false, app⟩ si ai = ⟨bag, store, false, app⟩) := by
  exact ⟨fun _ _ _ _ => rfl, fun _ _ => rfl, fun _ _ => rfl, fun _ _ _ _ _ => rfl⟩

/-- C10: The ShareRequested event exposes the request fields exactly as the
raw channel strings, not decoded values: `size` is carried as the decimal
string written into the channel and `allowlist` as the comma-joined string. -/
theorem claim10_share_requested_raw :
    (∀ (record : Databag) (n : String), record.get "name" = some n →
      NFS.shareRequestedEvent record = some ⟨n, record.get "allowlist", record.get "size"⟩) ∧
    (∀ (name : String) (al : String ⊕ List String) (sz : Int),
      NFS.shareRequestedEvent (NFS.request_share true Databag.empty name (some al) (some sz)) =
        some ⟨name, some (allowlistStr (some al)), some (toString sz)⟩) ∧
    (∀ (record : Databag) (n : String), record.get "name" = some n →
      CephFS.shareRequestedEvent record = some n) := by
  refine ⟨fun record n h => ?_, fun name al sz => ?_, fun record n h => h⟩
  · simp [NFS.shareRequestedEvent, h]
  · simp [NFS.shareRequestedEvent, NFS.request_share, Databag.set, Databag.empty, setEntries,
      Databag.get, lookupEntries, allowlistStr, sizeStr]

/-- Witness for C10 at a concrete record. -/
theorem claim10_witness :
    NFS.shareRequestedEvent ⟨[("name", "/data"), ("allowlist", "10.0.0.1/24"), ("size", "100")]⟩ =
      some ⟨"/data", some "10.0.0.1/24", some "100"⟩ ∧
    CephFS.shareRequestedEvent ⟨[("name", "/data")]⟩ = some "/data" :=
  ⟨by
    have h := claim10_share_requested_raw.1 ⟨[("name", "/data"), ("allowlist", "10.0.0.1/24"),
      ("size", "100")]⟩ "/data" (by decide)
    simpa using h,
   claim10_share_requested_raw.2.2 ⟨[("name", "/data")]⟩ "/data" (by decide)⟩

/-- C1: Once the CephFS provider's `set_share` has created a secret handle for
a pairing (the handle is stored in the channel's `auth` field and is
resolvable), every subsequent `set_share` call on that pairing with any
auth_info leaves the handle stored in `auth` unchanged while the secret
content resolved through that handle equals the auth_info of the most recent
call. -/
theorem claim1_handle_stable (st : CephFSProviderState) (si : CephFSShareInfo)
    (ai : CephFSAuthInfo) (h : String) (hld : st.isLeader = true)
    (hauth : st.bag.get "auth" = some h) (hres : (st.store.resolve h).isSome = true) :
    (CephFS.set_share st si ai).bag.get "auth" = some h ∧
    (CephFS.set_share st si ai).store.resolve h = some ai := by
  have hred : CephFS.set_share st si ai =
      { st with bag := st.bag.set "share_info" (encodeShareInfo si),
                store := st.store.update h ai } := by
    simp [CephFS.set_share, hld, hauth]
  rw [hred]
  exact ⟨by simp [Databag.get_set, hauth], SecretStore.resolve_update st.store h ai hres⟩

/-- Witness for C1: a pairing whose provider has already created handle
`secret:0`; a further `set_share` keeps the handle and swaps the content. -/
theorem claim1_witness :
    (CephFS.set_share ⟨⟨[("auth", "secret:0")]⟩, ⟨[("secret:0", ⟨"user", "old"⟩)], [], 1⟩, true,
        "app"⟩ ⟨"f", "n", "/p", ["h:1"]⟩ ⟨"user", "new"⟩).bag.get "auth" = some "secret:0" ∧
    (CephFS.set_share ⟨⟨[("auth", "secret:0")]⟩, ⟨[("secret:0", ⟨"user", "old"⟩)], [], 1⟩, true,
        "app"⟩ ⟨"f", "n", "/p", ["h:1"]⟩ ⟨"user", "new"⟩).store.resolve "secret:0" =
      some ⟨"user", "new"⟩ :=
  claim1_handle_stable _ _ _ _ rfl (by decide) (by decide)

/-- C2: Calling `set_share` (CephFS) or `set_endpoint` (NFS) a second time
with arguments identical to the first call leaves the channel content exactly
as it was after the first call; for CephFS the whole provider state (databag,
secret store, handle counter) is unchanged, so the same secret handle is
reused and no new secret is minted. -/
theorem claim2_set_idempotent :
    (∀ (leader : Bool) (bag : Databag) (e : String),
      NFS.set_endpoint leader (NFS.set_endpoint leader bag e) e =
        NFS.set_endpoint leader bag e) ∧
    (∀ (st : CephFSProviderState) (si : CephFSShareInfo) (ai : CephFSAuthInfo),
      HandleFresh st.store →
      CephFS.set_share (CephFS.set_share st si ai) si ai = CephFS.set_share st si ai) := by
  constructor
  · intro leader bag e
    cases leader with
    | false => rfl
    | true => simp [NFS.set_endpoint, Databag.set_set]
  · intro st si ai hfresh
    cases hld : st.isLeader with
    | false =>
      have h1 : CephFS.set_share st si ai = st := by simp [CephFS.set_share, hld]
      simp [h1]
    | true =>
      cases hauth : st.bag.get "auth" with
      | some h =>
        have h1 : CephFS.set_share st si ai =
            { st with bag := st.bag.set "share_info" (encodeShareInfo si),
                      store := st.store.update h ai } := by
          simp [CephFS.set_share, hld, hauth]
        rw [h1]
        have h2 : (st.bag.set "share_info" (encodeShareInfo si)).get "auth" = some h := by
          simp [Databag.get_set, hauth]
        simp [CephFS.set_share, hld, h2, Databag.set_set, SecretStore.update_update]
      | none =>
        have h1 : CephFS.set_share st si ai =
            { st with
              bag := (st.bag.set "share_info" (encodeShareInfo si)).set "auth"
                (freshHandle st.store)
              store := ((st.store.create ai).2).grant (freshHandle st.store) st.remoteApp } := by
          simp [CephFS.set_share, hld, hauth, SecretStore.create]
        rw [h1]
        have h2 : (((st.bag.set "share_info" (encodeShareInfo si)).set "auth"
            (freshHandle st.store)) : Databag).get "auth" = some (freshHandle st.store) := by
          simp [Databag.get_set]
        have h3 : ((st.bag.set "share_info" (encodeShareInfo si)).set "auth"
            (freshHandle st.store)).set "share_info" (encodeShareInfo si) =
            (st.bag.set "share_info" (encodeShareInfo si)).set "auth" (freshHandle st.store) := by
          apply Databag.set_eq_self
          simp [Databag.get_set]
        have h4 : (((st.store.create ai).2).grant (freshHandle st.store) st.remoteApp).update
            (freshHandle st.store) ai =
            ((st.store.create ai).2).grant (freshHandle st.store) st.remoteApp := by
          simp [SecretStore.create, SecretStore.grant, SecretStore.update]
          exact updateSecrets_append_fresh st.store.secrets (freshHandle st.store) ai hfresh
        simp [CephFS.set_share, hld, h2, h3, h4]

/-- Witness for C2: repeating an identical `set_share` on a fresh pairing
leaves the state of the first call untouched. -/
theorem claim2_witness :
    CephFS.set_share
        (CephFS.set_share ⟨Databag.empty, SecretStore.empty, true, "app"⟩ ⟨"f", "n", "/p",
          ["h:1"]⟩ ⟨"u", "k"⟩) ⟨"f", "n", "/p", ["h:1"]⟩ ⟨"u", "k"⟩ =
      CephFS.set_share ⟨Databag.empty, SecretStore.empty, true, "app"⟩ ⟨"f", "n", "/p",
        ["h:1"]⟩ ⟨"u", "k"⟩ :=
  claim2_set_idempotent.2 ⟨Databag.empty, SecretStore.empty, true, "app"⟩
    ⟨"f", "n", "/p", ["h:1"]⟩ ⟨"u", "k"⟩ (by decide)

/-- C5: When a remote peer departs, the UmountShare event fires exactly when
the peer's last-known record held a complete ShareInfo (with, for CephFS, a
resolvable AuthInfo), and its payload equals the last published values; a
peer that never published complete info produces no event. -/
theorem claim5_umount_last_value :
    (∀ (bag : Databag) (e : String),
      NFS.umountEvent (NFS.set_endpoint true bag e) = some e) ∧
    (∀ record : Databag, record.get "endpoint" = none → NFS.umountEvent record = none) ∧
    (∀ (si : CephFSShareInfo) (ai : CephFSAuthInfo) (app : String), ShareInfoWf si →
      CephFS.umountEvent
          (CephFS.set_share ⟨Databag.empty, SecretStore.empty, true, app⟩ si ai).store
          (CephFS.set_share ⟨Databag.empty, SecretStore.empty, true, app⟩ si ai).bag =
        some (si, ai)) ∧
    (∀ store : SecretStore, CephFS.umountEvent store Databag.empty = none) := by
  refine ⟨fun bag e => ?_, fun record h => h, fun si ai app hwf => ?_, fun store => rfl⟩
  · simp [NFS.umountEvent, NFS.set_endpoint, Databag.get_set]
  · have hbag := set_share_fresh_bag si ai app
    have hres := set_share_fresh_resolve si ai app
    rw [CephFS.umountEvent, hbag]
    have hsi : (Databag.get ⟨[("share_info", encodeShareInfo si), ("auth", "secret:0")]⟩
        "share_info") = some (encodeShareInfo si) := by simp [Databag.get, lookupEntries]
    have hau : (Databag.get ⟨[("share_info", encodeShareInfo si), ("auth", "secret:0")]⟩
        "auth") = some "secret:0" := by simp [Databag.get, lookupEntries]
    rw [hsi, hau]
    dsimp only []
    rw [decodeShareInfo_encode si hwf]
    rw [show ("secret:0" : String) = "secret:" ++ "0" from rfl] at hres ⊢
    rw [resolveAuth_handle _ _ _ hres]

/-- Witness for C5 at concrete share and auth payloads. -/
theorem claim5_witness :
    CephFS.umountEvent
        (CephFS.set_share ⟨Databag.empty, SecretStore.empty, true, "app"⟩
          ⟨"f", "fs", "/data", ["10.0.0.1:6789"]⟩ ⟨"user", "key=="⟩).store
        (CephFS.set_share ⟨Databag.empty, SecretStore.empty, true, "app"⟩
          ⟨"f", "fs", "/data", ["10.0.0.1:6789"]⟩ ⟨"user", "key=="⟩).bag =
      some (⟨"f", "fs", "/data", ["10.0.0.1:6789"]⟩, ⟨"user", "key=="⟩) :=
  claim5_umount_last_value.2.2.1 ⟨"f", "fs", "/data", ["10.0.0.1:6789"]⟩ ⟨"user", "key=="⟩
    "app" (by decide)

/-- C6: A channel record that is incomplete — missing `endpoint` (NFS) or
`share_info`/`auth` (CephFS), carrying an undecodable structured-text blob
(for instance one missing `monitor_hosts`), or referencing an unresolvable
secret — never produces a MountShare event; the event deciders are total
functions into `Option`, so no error is raised to the consumer. -/
theorem claim6_incomplete_suppressed :
    (∀ record : Databag, record.get "endpoint" = none → NFS.mountEvent record = none) ∧
    (∀ (store : SecretStore) (record : Databag), record.get "share_info" = none →
      CephFS.mountEvent store record = none) ∧
    (∀ (store : SecretStore) (record : Databag), record.get "auth" = none →
      CephFS.mountEvent store record = none) ∧
    (∀ (store : SecretStore) (record : Databag) (blob : String),
      record.get "share_info" = some blob → decodeShareInfo blob = none →
      CephFS.mountEvent store record = none) ∧
    (∀ (store : SecretStore) (record : Databag) (auth : String),
      record.get "auth" = some auth → CephFS.resolveAuth store auth = none →
      CephFS.mountEvent store record = none) ∧
    decodeShareInfo "\x7b\"fsid\": \"f\", \"name\": \"n\", \"path\": \"/p\"\x7d" = none ∧
    CephFS.resolveAuth SecretStore.empty "secret:99" = none := by
  refine ⟨fun record h => h, fun store record h => ?_, fun store record h => ?_,
    fun store record blob hb hd => ?_, fun store record auth ha hr => ?_, by decide, by decide⟩
  · simp [CephFS.mountEvent, h]
  · cases hsi : record.get "share_info" <;> simp [CephFS.mountEvent, hsi, h]
  · cases ha : record.get "auth" <;> simp [CephFS.mountEvent, hb, ha, hd]
  · cases hsi : record.get "share_info" with
    | none => simp [CephFS.mountEvent, hsi]
    | some blob =>
      cases hd : decodeShareInfo blob <;> simp [CephFS.mountEvent, hsi, ha, hd, hr]

/-- Witness for C6 at concrete incomplete records. -/
theorem claim6_witness :
    NFS.mountEvent Databag.empty = none ∧
    CephFS.mountEvent SecretStore.empty Databag.empty = none ∧
    CephFS.mountEvent SecretStore.empty ⟨[("share_info", "junk"), ("auth", "secret:0")]⟩ =
      none ∧
    CephFS.mountEvent SecretStore.empty
      ⟨[("share_info",
         "\x7b\"fsid\": \"f\", \"name\": \"n\", \"path\": \"/p\"\x7d"),
        ("auth", "secret:0")]⟩ = none ∧
    CephFS.mountEvent SecretStore.empty
      ⟨[("share_info",
         "\x7b\"fsid\": \"f\", \"name\": \"n\", \"path\": \"/p\", \"monitor_hosts\": [\"m:1\"]\x7d"),
        ("auth", "secret:99")]⟩ = none :=
  ⟨claim6_incomplete_suppressed.1 Databag.empty (by decide),
   claim6_incomplete_suppressed.2.1 SecretStore.empty Databag.empty (by decide),
   claim6_incomplete_suppressed.2.2.2.1 SecretStore.empty
     ⟨[("share_info", "junk"), ("auth", "secret:0")]⟩ "junk" (by decide) (by decide),
   claim6_incomplete_suppressed.2.2.2.1 SecretStore.empty _
     "\x7b\"fsid\": \"f\", \"name\": \"n\", \"path\": \"/p\"\x7d" (by decide) (by decide),
   claim6_incomplete_suppressed.2.2.2.2.1 SecretStore.empty _ "secret:99" (by decide)
     (by decide)⟩

/-- C7: CephFS AuthInfo resolution is decided by the `auth` value's marker: a
`plain:`-marked value followed by an inline structured-text `{username,key}`
payload is decoded directly and the MountShare/UmountShare events carry an
AuthInfo equal to that payload; a bare `secret:`-shaped handle is
dereferenced through the secret store; any other shape is unresolvable and
(by C6) suppresses the event. -/
theorem claim7_auth_dispatch :
    (∀ (store : SecretStore) (a : CephFSAuthInfo), AuthInfoWf a →
      CephFS.resolveAuth store ("plain:" ++ encodeAuthInfo a) = some a) ∧
    (∀ (store : SecretStore) (si : CephFSShareInfo) (a : CephFSAuthInfo),
      ShareInfoWf si → AuthInfoWf a →
      CephFS.mountEvent store
          ⟨[("share_info", encodeShareInfo si),
            ("auth", "plain:" ++ encodeAuthInfo a)]⟩ = some (si, a) ∧
      CephFS.umountEvent store
          ⟨[("share_info", encodeShareInfo si),
            ("auth", "plain:" ++ encodeAuthInfo a)]⟩ = some (si, a)) ∧
    (∀ (store : SecretStore) (n : String) (ai : CephFSAuthInfo),
      store.resolve ("secret:" ++ n) = some ai →
      CephFS.resolveAuth store ("secret:" ++ n) = some ai) ∧
    (∀ (store : SecretStore) (auth : String),
      stripToken "plain:".data auth.data = none →
      stripToken "secret:".data auth.data = none →
      CephFS.resolveAuth store auth = none) ∧
    (∀ store : SecretStore, CephFS.resolveAuth store "scheme:/path" = none) := by
  have hev : ∀ (store : SecretStore) (si : CephFSShareInfo) (a : CephFSAuthInfo),
      ShareInfoWf si → AuthInfoWf a →
      CephFS.mountEvent store
          ⟨[("share_info", encodeShareInfo si),
            ("auth", "plain:" ++ encodeAuthInfo a)]⟩ = some (si, a) := by
    intro store si a hsi ha
    rw [CephFS.mountEvent]
    have h1 : (Databag.get ⟨[("share_info", encodeShareInfo si),
        ("auth", "plain:" ++ encodeAuthInfo a)]⟩ "share_info") = some (encodeShareInfo si) := by
      simp [Databag.get, lookupEntries]
    have h2 : (Databag.get ⟨[("share_info", encodeShareInfo si),
        ("auth", "plain:" ++ encodeAuthInfo a)]⟩ "auth") =
        some ("plain:" ++ encodeAuthInfo a) := by
      simp [Databag.get, lookupEntries]
    rw [h1, h2]
    dsimp only []
    rw [decodeShareInfo_encode si hsi, resolveAuth_plain store a ha]
  refine ⟨fun store a ha => resolveAuth_plain store a ha,
    fun store si a hsi ha => ⟨hev store si a hsi ha, ?_⟩,
    fun store n ai h => resolveAuth_handle store n ai h,
    fun store auth h1 h2 => ?_, fun store => rfl⟩
  · have := hev store si a hsi ha
    rw [CephFS.umountEvent]
    rw [CephFS.mountEvent] at this
    exact this
  · rw [CephFS.resolveAuth, h1]
    dsimp only []
    rw [h2]

/-- Witness for C7 at a concrete payload, handle and unrecognized shape. -/
theorem claim7_witness :
    CephFS.resolveAuth SecretStore.empty ("plain:" ++ encodeAuthInfo ⟨"user", "key=="⟩) =
      some ⟨"user", "key=="⟩ ∧
    CephFS.resolveAuth ⟨[("secret:7", ⟨"u", "k"⟩)], [], 8⟩ ("secret:" ++ "7") =
      some ⟨"u", "k"⟩ ∧
    CephFS.resolveAuth SecretStore.empty "scheme:/path" = none :=
  ⟨claim7_auth_dispatch.1 SecretStore.empty ⟨"user", "key=="⟩ (by decide),
   claim7_auth_dispatch.2.2.1 ⟨[("secret:7", ⟨"u", "k"⟩)], [], 8⟩ "7" ⟨"u", "k"⟩ (by decide),
   claim7_auth_dispatch.2.2.2.2 SecretStore.empty⟩
